import Mathlib

/-!
# Verification of `multi_schema_data_fetcher.py`

Shallow embedding of the class `MultiSchemaFetcher` from
`src/multi_schema_data_fetcher.py`: the per-source fetch
(`fetch_from_schema`, lines 93-181), the grouped streaming CSV writer
(the nested `write_row`, lines 249-297) and the run driver
(`fetch_all_schemas`, lines 222-367).

Modelling conventions:
* A Python `dict` is an association list with Python's semantics: lookup by
  key, assignment keeps an existing key's position and appends a new key at
  the end, `update` inserts the other dict's pairs in order.
* Row values are modelled as strings (the claims under verification do not
  depend on the value type).
* A CSV record is a list of cells; a group's output file content is the list
  of records written to it (header record first).
* The database is an oracle parameter (`DbBehavior`): connecting and running
  the query either fails at connect time, fails during execution, or yields
  a column list and a list of value tuples, exactly the three outcomes the
  Python `try`/`except` structure distinguishes.
* Wall-clock duration is an oracle parameter threaded into the summary.
* The thread pool is modelled by quantifying over the completion-ordered
  list of per-source `FetchResult`s: `as_completed` yields exactly one
  result per submitted source, in an arbitrary order.
-/

namespace MSF

/-- Association-list lookup, mirroring Python `dict` lookup / `d.get(k)`. -/
def alookup {α : Type} (k : String) : List (String × α) → Option α
  | [] => none
  | (k1, v) :: rest => if k1 = k then some v else alookup k rest

/-- Association-list assignment `d[k] = v`: a Python dict keeps the position
of an existing key and appends a new key at the end. -/
def aset {α : Type} (k : String) (v : α) : List (String × α) → List (String × α)
  | [] => [(k, v)]
  | (k1, v1) :: rest => if k1 = k then (k, v) :: rest else (k1, v1) :: aset k v rest

/-- A result row: a Python dict from column name to value. -/
abbrev Row := List (String × String)

/-- Python `d.update(e)`: insert every pair of `e` into `d` in order,
pairs of `e` overwriting existing keys of `d`. -/
def dictUpdate (d e : Row) : Row := e.foldl (fun acc p => aset p.1 p.2 acc) d

/-- Python `dict(zip(columns, vals))` as used in `fetch_from_schema`
(line 150): `zip` truncates to the shorter list, later duplicate column
names overwrite earlier ones. -/
def dictOfZip (cols vals : List String) : Row :=
  (List.zip cols vals).foldl (fun acc p => aset p.1 p.2 acc) []

/-- Remove a key from a row (used to state that columns outside the header
are ignored by the writer). -/
def eraseKey (k : String) (d : Row) : Row := d.filter (fun p => p.1 != k)

/-- Python truthiness of an optional string (`if single_file_name:` /
`if group_column:`): `None` and the empty string are falsy. -/
def strOptTruthy : Option String → Bool
  | none => false
  | some s => s != ""

/-- Lexicographic code-point comparison of character lists: Python's string
`<=` (shorter prefix sorts first). -/
def charsLe : List Char → List Char → Bool
  | [], _ => true
  | _ :: _, [] => false
  | a :: as, b :: bs =>
    if a.toNat < b.toNat then true
    else if b.toNat < a.toNat then false
    else charsLe as bs

/-- Python string `<=` on code points. -/
def strLe (a b : String) : Bool := charsLe a.data b.data

/-- Insert a string into a (sorted) list, keeping order. -/
def insertSorted (s : String) : List String → List String
  | [] => [s]
  | t :: ts => if strLe s t then s :: t :: ts else t :: insertSorted s ts

/-- Python `sorted` on a list of strings (insertion sort by `strLe`). -/
def sortStrings : List String → List String
  | [] => []
  | s :: ss => insertSorted s (sortStrings ss)

/-- Configuration surface of `fetch_all_schemas` relevant to the writer:
the grouping column and the optional single-output-file override. -/
structure Config where
  group_column : Option String
  single_file_name : Option String
deriving DecidableEq

/-- `row = {'schema': schema_name}; row.update(data_row)`
(write_row, lines 253-254). -/
def mkRow (schema_name : String) (data_row : Row) : Row :=
  dictUpdate [("schema", schema_name)] data_row

/-- Group-key selection (write_row, lines 255-262): the single-file override
forces group `"all"`; otherwise a configured grouping column selects
`data_row.get(group_column, 'unknown')`; otherwise group `"all"`. -/
def groupValue (cfg : Config) (data_row : Row) : String :=
  if strOptTruthy cfg.single_file_name then "all"
  else if strOptTruthy cfg.group_column then
    (alookup (cfg.group_column.getD "") data_row).getD "unknown"
  else "all"

/-- Output file name chosen when a group is first opened
(write_row, lines 267-273). -/
def filenameFor (cfg : Config) (group_value : String) : String :=
  if strOptTruthy cfg.single_file_name then cfg.single_file_name.getD ""
  else if strOptTruthy cfg.group_column then
    cfg.group_column.getD "" ++ "_" ++ group_value ++ ".csv"
  else "schema_results.csv"

/-- Fieldnames fixed on a group's first row:
`['schema'] + sorted([k for k in row.keys() if k != 'schema'])` (line 281). -/
def headerFor (row : Row) : List String :=
  "schema" :: sortStrings ((row.map Prod.fst).filter (fun k => k != "schema"))

/-- `csv.DictWriter(..., extrasaction='ignore').writerow(row)`: one cell per
fieldname in order; a key missing from the row yields the default `restval`
`''`; row keys outside the fieldnames are ignored. -/
def renderRow (fieldnames : List String) (row : Row) : List String :=
  fieldnames.map (fun f => (alookup f row).getD "")

/-- Writer-registry state shared by all `write_row` calls of one run:
the four dicts created in `fetch_all_schemas` (lines 244-247).
`group_writers` stores the fieldnames the `csv.DictWriter` was created with;
`open_files` maps a group to the file name opened for it; `outputs` maps a
group to the records written to its file so far. -/
structure WState where
  group_writers : List (String × List String)
  group_fieldnames : List (String × List String)
  group_row_counts : List (String × Nat)
  open_files : List (String × String)
  outputs : List (String × List (List String))
deriving DecidableEq

/-- The empty registry at the start of a run. -/
def initW : WState := ⟨[], [], [], [], []⟩

/-- First block of `write_row` (lines 265-277): if the group has no writer
yet, open its output file (mode `'w'` truncates, so its content starts
empty) and initialise its row count to 0. -/
def openGroupStep (cfg : Config) (gv : String) (s : WState) : WState :=
  if (alookup gv s.group_writers).isNone then
    { s with open_files := aset gv (filenameFor cfg gv) s.open_files
           , outputs := aset gv [] s.outputs
           , group_row_counts := aset gv 0 s.group_row_counts }
  else s

/-- Second block of `write_row` (lines 279-288): if the group has no
fieldnames yet, fix them from this row, create the `DictWriter` with those
fieldnames, and write the header record. -/
def headerStep (gv : String) (row : Row) (s : WState) : WState :=
  if (alookup gv s.group_fieldnames).isNone then
    { s with group_fieldnames := aset gv (headerFor row) s.group_fieldnames
           , group_writers := aset gv (headerFor row) s.group_writers
           , outputs := aset gv (((alookup gv s.outputs).getD []) ++ [headerFor row]) s.outputs }
  else s

/-- Third block of `write_row` (lines 290-292): render the row against the
writer's fieldnames, append it to the group's file, and increment the
group's row count. -/
def appendStep (gv : String) (row : Row) (s : WState) : WState :=
  { s with outputs := aset gv (((alookup gv s.outputs).getD [])
             ++ [renderRow ((alookup gv s.group_writers).getD []) row]) s.outputs
         , group_row_counts :=
             aset gv (((alookup gv s.group_row_counts).getD 0) + 1) s.group_row_counts }

/-- The nested `write_row(schema_name, data_row)` of `fetch_all_schemas`
(lines 249-297), executed under the registry lock. -/
def write_row (cfg : Config) (s : WState) (schema_name : String) (data_row : Row) : WState :=
  let row := mkRow schema_name data_row
  let gv := groupValue cfg data_row
  appendStep gv row (headerStep gv row (openGroupStep cfg gv s))

/-- A sequence of `write_row` calls (any interleaving of sources). -/
def runWrites (cfg : Config) (s : WState) : List (String × Row) → WState
  | [] => s
  | (schema, drow) :: rest => runWrites cfg (write_row cfg s schema drow) rest

/-- The first event of the list that lands in group `g`, as the full row the
writer builds for it (source-identifier column included). -/
def firstRowForGroup (cfg : Config) (g : String) : List (String × Row) → Option Row
  | [] => none
  | (schema, drow) :: rest =>
    if groupValue cfg drow = g then some (mkRow schema drow)
    else firstRowForGroup cfg g rest

/-- The result dict returned by `fetch_from_schema`: either
`{'schema', 'status': 'success', 'row_count', 'data'}` or
`{'schema', 'status': 'error', 'error'}`. -/
inductive FetchResult where
  | success (schema : String) (row_count : Nat) (data : List Row)
  | error (schema : String) (msg : String)
deriving DecidableEq

/-- The `'schema'` field present in both variants of the result dict. -/
def FetchResult.schemaOf : FetchResult → String
  | .success s _ _ => s
  | .error s _ => s

/-- `result['status'] == 'error'`. -/
def isError : FetchResult → Bool
  | .error _ _ => true
  | .success _ _ _ => false

/-- The connection descriptor row selected from the meta database
(`get_schema_credentials`). -/
structure Credentials where
  database_password : String
  database_name : String
  database_user : String
  server_name : String
deriving DecidableEq

/-- Oracle for one source's database: the connect attempt fails, the query
execution (or anything after connecting) raises, or the query returns a
cursor description and rows. -/
inductive DbBehavior where
  | connError (msg : String)
  | execError (msg : String)
  | queryOk (columns : List String) (rows : List (List String))
deriving DecidableEq

/-- `fetch_from_schema(credentials, query)` (lines 93-181): a connect
failure is caught and returned as an error dict with the timeout message
(lines 126-137); any other exception is caught by the outer handler and
returned as an error dict (lines 169-181); on success the rows are zipped
with the cursor's column names in result-set order and returned with
`row_count = len(data)` (lines 143-167). -/
def fetch_from_schema (cred : Credentials) (db : DbBehavior) : FetchResult :=
  match db with
  | .connError m =>
    .error cred.database_name ("Connection timeout after 15s: " ++ m)
  | .execError m => .error cred.database_name m
  | .queryOk cols rows =>
    let data := rows.map (fun r => dictOfZip cols r)
    .success cred.database_name data.length data

/-- Mutable run state of the `as_completed` loop in `fetch_all_schemas`:
the writer registry, `success_count`, `error_count`, and `self.errors`
(empty at the start of a run on a fresh fetcher). -/
structure RunState where
  ws : WState
  success_count : Nat
  error_count : Nat
  errors : List FetchResult
deriving DecidableEq

/-- The run state before any result arrives. -/
def initRun : RunState := ⟨initW, 0, 0, []⟩

/-- All rows of one successful source streamed through `write_row`
(lines 321-323); the loop passes the source's schema name, which
`fetch_from_schema` also stored in the result. -/
def writeRows (cfg : Config) (schema : String) (w : WState) (data : List Row) : WState :=
  data.foldl (fun acc d => write_row cfg acc schema d) w

/-- One iteration of the `as_completed` loop (lines 314-335): a success
bumps `success_count` and streams every row; an error bumps `error_count`
and appends the result dict to `self.errors`. -/
def processResult (cfg : Config) (st : RunState) (r : FetchResult) : RunState :=
  match r with
  | .success schema _ data =>
    { st with success_count := st.success_count + 1
            , ws := writeRows cfg schema st.ws data }
  | .error _ _ =>
    { st with error_count := st.error_count + 1, errors := st.errors ++ [r] }

/-- The whole `as_completed` loop over the completion-ordered results. -/
def processResults (cfg : Config) (st : RunState) (results : List FetchResult) : RunState :=
  results.foldl (processResult cfg) st

/-- The summary dict built at lines 358-365. Its keys are exactly
`total_schemas`, `successful`, `failed`, `duration_seconds`,
`total_rows_written` and `errors`. -/
structure RunSummary where
  total_schemas : Nat
  successful : Nat
  failed : Nat
  duration_seconds : Nat
  total_rows_written : Nat
  errors : List FetchResult
deriving DecidableEq

/-- `sum(group_row_counts.values())` (line 353). -/
def totalRows (ws : WState) : Nat := (ws.group_row_counts.map Prod.snd).sum

/-- What `fetch_all_schemas` leaves behind: the returned summary, the final
loop state, and the list of file names closed by the
`for f in open_files.values(): f.close()` loop (lines 338-340). -/
structure RunOutcome where
  summary : RunSummary
  final : RunState
  closed_files : List String
deriving DecidableEq

/-- `fetch_all_schemas(query, group_column, output_dir, single_file_name)`
(lines 222-367). One result per submitted source arrives through
`as_completed`, so `len(credentials_list)` equals the number of results;
`duration` abstracts the wall-clock measurement of lines 299 and 347-348. -/
def fetch_all_schemas (cfg : Config) (results : List FetchResult) (duration : Nat) : RunOutcome :=
  let st := processResults cfg initRun results
  { summary :=
      { total_schemas := results.length
      , successful := st.success_count
      , failed := st.error_count
      , duration_seconds := duration
      , total_rows_written := totalRows st.ws
      , errors := st.errors }
  , final := st
  , closed_files := st.ws.open_files.map Prod.snd }

/-- Combined row count of the data of all successful results. -/
def successRowTotal (results : List FetchResult) : Nat :=
  (results.map (fun r => match r with
    | .success _ _ data => data.length
    | .error _ _ => 0)).sum

/-- Combined `row_count` field of all successful results. -/
def successRowCountTotal (results : List FetchResult) : Nat :=
  (results.map (fun r => match r with
    | .success _ rc _ => rc
    | .error _ _ => 0)).sum

/-! ## Association-list lemmas -/

theorem alookup_aset_self {α : Type} (k : String) (v : α) (l : List (String × α)) :
    alookup k (aset k v l) = some v := by
  induction l with
  | nil => simp [aset, alookup]
  | cons p rest ih =>
    obtain ⟨k1, v1⟩ := p
    by_cases h : k1 = k
    · simp [aset, h, alookup]
    · simp [aset, h, alookup, ih]

theorem alookup_aset_ne {α : Type} {g k : String} (h : g ≠ k) (v : α)
    (l : List (String × α)) : alookup g (aset k v l) = alookup g l := by
  induction l with
  | nil => simp [aset, alookup, Ne.symm h]
  | cons p rest ih =>
    obtain ⟨k1, v1⟩ := p
    by_cases hk : k1 = k
    · subst hk
      simp [aset, alookup, Ne.symm h]
    · simp [aset, hk, alookup, ih]

theorem alookup_aset_isSome {α : Type} (g k : String) (v : α) (l : List (String × α)) :
    (alookup g (aset k v l)).isSome = if g = k then true else (alookup g l).isSome := by
  by_cases h : g = k
  · subst h; simp [alookup_aset_self]
  · simp [h, alookup_aset_ne h]

theorem aset_of_alookup_none {α : Type} {k : String} {l : List (String × α)}
    (h : alookup k l = none) (v : α) : aset k v l = l ++ [(k, v)] := by
  induction l with
  | nil => simp [aset]
  | cons p rest ih =>
    obtain ⟨k1, v1⟩ := p
    by_cases hk : k1 = k
    · simp [alookup, hk] at h
    · simp [alookup, hk] at h
      simp [aset, hk, ih h]

theorem alookup_mem_map_snd {α : Type} {g : String} {v : α} :
    ∀ {l : List (String × α)}, alookup g l = some v → v ∈ l.map Prod.snd := by
  intro l
  induction l with
  | nil => intro h; simp [alookup] at h
  | cons p rest ih =>
    intro h
    obtain ⟨k1, v1⟩ := p
    rw [List.map_cons]
    by_cases hk : k1 = g
    · simp [alookup, hk] at h
      simp [h]
    · simp [alookup, hk] at h
      exact List.mem_cons_of_mem _ (ih h)

theorem sum_aset_fresh {k : String} {l : List (String × Nat)}
    (h : alookup k l = none) (v : Nat) :
    ((aset k v l).map Prod.snd).sum = (l.map Prod.snd).sum + v := by
  rw [aset_of_alookup_none h v]
  simp

theorem sum_aset_succ {k : String} {l : List (String × Nat)} {c : Nat}
    (h : alookup k l = some c) :
    ((aset k (c + 1) l).map Prod.snd).sum = (l.map Prod.snd).sum + 1 := by
  induction l with
  | nil => simp [alookup] at h
  | cons p rest ih =>
    obtain ⟨k1, v1⟩ := p
    by_cases hk : k1 = k
    · simp [alookup, hk] at h
      subst h
      simp [aset, hk]
      omega
    · simp [alookup, hk] at h
      simp [aset, hk, ih h]
      omega

/-! ## `write_row` step lemmas -/

theorem write_row_group_fieldnames (cfg : Config) (s : WState) (schema : String) (drow : Row) :
    (write_row cfg s schema drow).group_fieldnames
      = if (alookup (groupValue cfg drow) s.group_fieldnames).isNone
        then aset (groupValue cfg drow) (headerFor (mkRow schema drow)) s.group_fieldnames
        else s.group_fieldnames := by
  simp only [write_row, appendStep, headerStep, openGroupStep]
  by_cases h1 : (alookup (groupValue cfg drow) s.group_writers).isNone <;>
    by_cases h2 : (alookup (groupValue cfg drow) s.group_fieldnames).isNone <;>
      simp [h1, h2]

theorem write_row_group_writers (cfg : Config) (s : WState) (schema : String) (drow : Row) :
    (write_row cfg s schema drow).group_writers
      = if (alookup (groupValue cfg drow) s.group_fieldnames).isNone
        then aset (groupValue cfg drow) (headerFor (mkRow schema drow)) s.group_writers
        else s.group_writers := by
  simp only [write_row, appendStep, headerStep, openGroupStep]
  by_cases h1 : (alookup (groupValue cfg drow) s.group_writers).isNone <;>
    by_cases h2 : (alookup (groupValue cfg drow) s.group_fieldnames).isNone <;>
      simp [h1, h2]

theorem write_row_open_files (cfg : Config) (s : WState) (schema : String) (drow : Row) :
    (write_row cfg s schema drow).open_files
      = if (alookup (groupValue cfg drow) s.group_writers).isNone
        then aset (groupValue cfg drow) (filenameFor cfg (groupValue cfg drow)) s.open_files
        else s.open_files := by
  simp only [write_row, appendStep, headerStep, openGroupStep]
  by_cases h1 : (alookup (groupValue cfg drow) s.group_writers).isNone <;>
    by_cases h2 : (alookup (groupValue cfg drow) s.group_fieldnames).isNone <;>
      simp [h1, h2]

theorem write_row_group_row_counts (cfg : Config) (s : WState) (schema : String) (drow : Row) :
    (write_row cfg s schema drow).group_row_counts
      = (let c1 := if (alookup (groupValue cfg drow) s.group_writers).isNone
             then aset (groupValue cfg drow) 0 s.group_row_counts
             else s.group_row_counts
         aset (groupValue cfg drow) ((alookup (groupValue cfg drow) c1).getD 0 + 1) c1) := by
  simp only [write_row, appendStep, headerStep, openGroupStep]
  by_cases h1 : (alookup (groupValue cfg drow) s.group_writers).isNone <;>
    by_cases h2 : (alookup (groupValue cfg drow) s.group_fieldnames).isNone <;>
      simp [h1, h2]

/-! ## The registry-synchronisation invariant

In any state reachable by `write_row` from the empty registry, the four
dicts of the registry have the same set of group keys: a group gets its
file, its writer, its fieldnames and its row-count entry together, on its
first row. -/

def SyncedW (s : WState) : Prop :=
  ∀ g : String,
    (alookup g s.group_writers).isSome = (alookup g s.group_fieldnames).isSome ∧
    (alookup g s.group_writers).isSome = (alookup g s.group_row_counts).isSome ∧
    (alookup g s.group_writers).isSome = (alookup g s.open_files).isSome ∧
    (alookup g s.group_writers).isSome = (alookup g s.outputs).isSome

theorem syncedW_initW : SyncedW initW := by
  intro g
  simp [initW, alookup]

theorem write_row_fieldnames_isSome (cfg : Config) (s : WState) (schema g : String)
    (drow : Row) :
    (alookup g (write_row cfg s schema drow).group_fieldnames).isSome
      = if g = groupValue cfg drow then true
        else (alookup g s.group_fieldnames).isSome := by
  rw [write_row_group_fieldnames]
  by_cases h2 : (alookup (groupValue cfg drow) s.group_fieldnames).isNone <;>
    by_cases hg : g = groupValue cfg drow <;>
      simp [h2, hg, alookup_aset_isSome]
  · cases ho : alookup (groupValue cfg drow) s.group_fieldnames
    · exact absurd (by simp [ho]) h2
    · simp [ho]

theorem write_row_counts_isSome (cfg : Config) (s : WState) (schema g : String)
    (drow : Row) :
    (alookup g (write_row cfg s schema drow).group_row_counts).isSome
      = if g = groupValue cfg drow then true
        else (alookup g s.group_row_counts).isSome := by
  rw [write_row_group_row_counts]
  by_cases h1 : (alookup (groupValue cfg drow) s.group_writers).isNone <;>
    by_cases hg : g = groupValue cfg drow <;>
      simp [h1, hg, alookup_aset_isSome]

theorem write_row_outputs_isSome (cfg : Config) (s : WState) (schema g : String)
    (drow : Row) :
    (alookup g (write_row cfg s schema drow).outputs).isSome
      = if g = groupValue cfg drow then true
        else (alookup g s.outputs).isSome := by
  simp only [write_row, appendStep, headerStep, openGroupStep]
  by_cases h1 : (alookup (groupValue cfg drow) s.group_writers).isNone <;>
    by_cases h2 : (alookup (groupValue cfg drow) s.group_fieldnames).isNone <;>
      by_cases hg : g = groupValue cfg drow <;>
        simp [h1, h2, hg, alookup_aset_isSome]

theorem write_row_writers_isSome (cfg : Config) (s : WState) (schema g : String)
    (drow : Row)
    (f1 : (alookup (groupValue cfg drow) s.group_writers).isSome
        = (alookup (groupValue cfg drow) s.group_fieldnames).isSome) :
    (alookup g (write_row cfg s schema drow).group_writers).isSome
      = if g = groupValue cfg drow then true
        else (alookup g s.group_writers).isSome := by
  rw [write_row_group_writers]
  by_cases h2 : (alookup (groupValue cfg drow) s.group_fieldnames).isNone <;>
    by_cases hg : g = groupValue cfg drow <;>
      simp [h2, hg, alookup_aset_isSome]
  · rw [f1]
    cases ho : alookup (groupValue cfg drow) s.group_fieldnames
    · exact absurd (by simp [ho]) h2
    · simp [ho]

theorem write_row_open_isSome (cfg : Config) (s : WState) (schema g : String)
    (drow : Row)
    (f3 : (alookup (groupValue cfg drow) s.group_writers).isSome
        = (alookup (groupValue cfg drow) s.open_files).isSome) :
    (alookup g (write_row cfg s schema drow).open_files).isSome
      = if g = groupValue cfg drow then true
        else (alookup g s.open_files).isSome := by
  rw [write_row_open_files]
  by_cases h1 : (alookup (groupValue cfg drow) s.group_writers).isNone <;>
    by_cases hg : g = groupValue cfg drow <;>
      simp [h1, hg, alookup_aset_isSome]
  · rw [← f3]
    cases ho : alookup (groupValue cfg drow) s.group_writers
    · exact absurd (by simp [ho]) h1
    · simp [ho]

theorem syncedW_write_row {s : WState} (hs : SyncedW s) (cfg : Config)
    (schema : String) (drow : Row) : SyncedW (write_row cfg s schema drow) := by
  intro g
  obtain ⟨e1, e2, e3, e4⟩ := hs g
  obtain ⟨f1, f2, f3, f4⟩ := hs (groupValue cfg drow)
  rw [write_row_writers_isSome cfg s schema g drow f1,
    write_row_fieldnames_isSome, write_row_counts_isSome, write_row_outputs_isSome,
    write_row_open_isSome cfg s schema g drow f3]
  by_cases hg : g = groupValue cfg drow
  · simp [hg]
  · simp only [if_neg hg]
    exact ⟨e1, e2, e3, e4⟩

theorem totalRows_write_row {s : WState} (hs : SyncedW s) (cfg : Config)
    (schema : String) (drow : Row) :
    totalRows (write_row cfg s schema drow) = totalRows s + 1 := by
  obtain ⟨f1, f2, f3, f4⟩ := hs (groupValue cfg drow)
  rw [totalRows, totalRows, write_row_group_row_counts]
  by_cases h1 : (alookup (groupValue cfg drow) s.group_writers).isNone
  · have hc : alookup (groupValue cfg drow) s.group_row_counts = none := by
      cases ho : alookup (groupValue cfg drow) s.group_row_counts
      · rfl
      · rw [Option.isNone_iff_eq_none] at h1
        rw [h1, ho] at f2
        simp at f2
    simp only [h1, if_true]
    rw [alookup_aset_self]
    simp only [Option.getD_some]
    rw [sum_aset_succ (alookup_aset_self _ _ _), sum_aset_fresh hc]
  · have hc : ∃ c, alookup (groupValue cfg drow) s.group_row_counts = some c := by
      rw [← Option.isSome_iff_exists, ← f2]
      cases ho : alookup (groupValue cfg drow) s.group_writers
      · exact absurd (by simp [ho]) h1
      · simp [ho]
    obtain ⟨c, hc⟩ := hc
    simp [h1]
    rw [hc]
    simp only [Option.getD_some]
    exact sum_aset_succ hc

theorem write_row_open_files_mono {s : WState} (hs : SyncedW s) (cfg : Config)
    (schema : String) (drow : Row) {g fn : String}
    (h : alookup g s.open_files = some fn) :
    alookup g (write_row cfg s schema drow).open_files = some fn := by
  rw [write_row_open_files]
  by_cases h1 : (alookup (groupValue cfg drow) s.group_writers).isNone
  · have hg : g ≠ groupValue cfg drow := by
      intro he
      subst he
      obtain ⟨f1, f2, f3, f4⟩ := hs (groupValue cfg drow)
      rw [Option.isNone_iff_eq_none] at h1
      rw [h1, h] at f3
      simp at f3
    simp [h1, alookup_aset_ne hg, h]
  · simp [h1, h]

/-! ## Header evolution over a sequence of writes -/

theorem runWrites_append (cfg : Config) (evs1 evs2 : List (String × Row)) :
    ∀ s : WState, runWrites cfg s (evs1 ++ evs2) = runWrites cfg (runWrites cfg s evs1) evs2 := by
  induction evs1 with
  | nil => intro s; rfl
  | cons e rest ih =>
    intro s
    obtain ⟨schema, drow⟩ := e
    simp only [List.cons_append, runWrites]
    exact ih (write_row cfg s schema drow)

theorem runWrites_fieldnames (cfg : Config) (g : String) :
    ∀ (evs : List (String × Row)) (s : WState),
      alookup g (runWrites cfg s evs).group_fieldnames
        = (alookup g s.group_fieldnames).or
            ((firstRowForGroup cfg g evs).map headerFor) := by
  intro evs
  induction evs with
  | nil => intro s; simp [runWrites, firstRowForGroup]
  | cons e rest ih =>
    intro s
    obtain ⟨schema, drow⟩ := e
    simp only [runWrites]
    rw [ih (write_row cfg s schema drow), write_row_group_fieldnames]
    by_cases hn : (alookup (groupValue cfg drow) s.group_fieldnames).isNone
    · by_cases hg : groupValue cfg drow = g
      · subst hg
        have hnone : alookup (groupValue cfg drow) s.group_fieldnames = none :=
          Option.isNone_iff_eq_none.mp hn
        simp [hn, hnone, alookup_aset_self, firstRowForGroup]
      · simp [hn, alookup_aset_ne (Ne.symm hg), firstRowForGroup, hg]
    · by_cases hg : groupValue cfg drow = g
      · subst hg
        cases ho : alookup (groupValue cfg drow) s.group_fieldnames with
        | none => exact absurd (by simp [ho]) hn
        | some fs => simp [hn, ho, firstRowForGroup, Option.or]
      · simp [hn, firstRowForGroup, hg]

/-! ## Effect of one completed source on the run state -/

theorem writeRows_spec (cfg : Config) (schema : String) :
    ∀ (data : List Row) (w : WState), SyncedW w →
      SyncedW (writeRows cfg schema w data) ∧
      totalRows (writeRows cfg schema w data) = totalRows w + data.length ∧
      (∀ g fn, alookup g w.open_files = some fn →
        alookup g (writeRows cfg schema w data).open_files = some fn) := by
  intro data
  induction data with
  | nil => intro w hw; exact ⟨hw, by simp [writeRows], fun g fn h => h⟩
  | cons d rest ih =>
    intro w hw
    have hstep : writeRows cfg schema w (d :: rest)
        = writeRows cfg schema (write_row cfg w schema d) rest := rfl
    have hw1 := syncedW_write_row hw cfg schema d
    obtain ⟨ih1, ih2, ih3⟩ := ih (write_row cfg w schema d) hw1
    refine ⟨hstep ▸ ih1, ?_, ?_⟩
    · rw [hstep, ih2, totalRows_write_row hw]
      simp only [List.length_cons]
      omega
    · intro g fn hfn
      rw [hstep]
      exact ih3 g fn (write_row_open_files_mono hw cfg schema d hfn)

theorem filter_isError_length_split (results : List FetchResult) :
    (results.filter (fun r => !(isError r))).length
      + (results.filter isError).length = results.length := by
  induction results with
  | nil => simp
  | cons r rest ih =>
    cases r with
    | success a b c =>
      simp [show isError (FetchResult.success a b c) = false from rfl]
      omega
    | error a b =>
      simp [show isError (FetchResult.error a b) = true from rfl]
      omega

theorem processResults_spec (cfg : Config) :
    ∀ (results : List FetchResult) (st : RunState), SyncedW st.ws →
      SyncedW (processResults cfg st results).ws ∧
      (processResults cfg st results).success_count
        = st.success_count + (results.filter (fun r => !(isError r))).length ∧
      (processResults cfg st results).error_count
        = st.error_count + (results.filter isError).length ∧
      (processResults cfg st results).errors = st.errors ++ results.filter isError ∧
      totalRows (processResults cfg st results).ws
        = totalRows st.ws + successRowTotal results ∧
      (∀ g fn, alookup g st.ws.open_files = some fn →
        alookup g (processResults cfg st results).ws.open_files = some fn) := by
  intro results
  induction results with
  | nil =>
    intro st hw
    exact ⟨hw, by simp [processResults], by simp [processResults],
      by simp [processResults], by simp [processResults, successRowTotal],
      fun g fn h => h⟩
  | cons r rest ih =>
    intro st hw
    have hcons : processResults cfg st (r :: rest)
        = processResults cfg (processResult cfg st r) rest := rfl
    cases r with
    | success schema rc data =>
      obtain ⟨w1, w2, w3⟩ := writeRows_spec cfg schema data st.ws hw
      obtain ⟨i1, i2, i3, i4, i5, i6⟩ :=
        ih (processResult cfg st (.success schema rc data)) (by
          simpa [processResult] using w1)
      rw [hcons]
      refine ⟨i1, ?_, ?_, ?_, ?_, ?_⟩
      · rw [i2]; simp [processResult, isError]; omega
      · rw [i3]; simp [processResult, isError]
      · rw [i4]; simp [processResult, isError]
      · rw [i5]; simp only [processResult]
        rw [w2]
        simp [successRowTotal]
        omega
      · intro g fn hfn
        exact i6 g fn (by simpa [processResult] using w3 g fn hfn)
    | error schema msg =>
      obtain ⟨i1, i2, i3, i4, i5, i6⟩ :=
        ih (processResult cfg st (.error schema msg)) (by
          simpa [processResult] using hw)
      rw [hcons]
      refine ⟨i1, ?_, ?_, ?_, ?_, ?_⟩
      · rw [i2]; simp [processResult, isError]
      · rw [i3]; simp [processResult, isError]; omega
      · rw [i4]; simp [processResult, isError]
      · rw [i5]; simp [processResult, successRowTotal]
      · intro g fn hfn
        exact i6 g fn (by simpa [processResult] using hfn)

/-! ## One `write_row` call on an existing and on a fresh group -/

theorem write_row_existing_outputs (cfg : Config) (s : WState) (schema : String)
    (drow : Row) (fs : List String)
    (hw : alookup (groupValue cfg drow) s.group_writers = some fs)
    (hf : alookup (groupValue cfg drow) s.group_fieldnames = some fs) :
    (write_row cfg s schema drow).outputs
      = aset (groupValue cfg drow)
          (((alookup (groupValue cfg drow) s.outputs).getD [])
            ++ [renderRow fs (mkRow schema drow)]) s.outputs := by
  simp [write_row, openGroupStep, headerStep, appendStep, hw, hf]

theorem write_row_fresh (cfg : Config) (s : WState) (schema : String) (drow : Row)
    (hw : alookup (groupValue cfg drow) s.group_writers = none)
    (hf : alookup (groupValue cfg drow) s.group_fieldnames = none) :
    alookup (groupValue cfg drow) (write_row cfg s schema drow).open_files
        = some (filenameFor cfg (groupValue cfg drow)) ∧
    alookup (groupValue cfg drow) (write_row cfg s schema drow).outputs
        = some [headerFor (mkRow schema drow),
            renderRow (headerFor (mkRow schema drow)) (mkRow schema drow)] ∧
    alookup (groupValue cfg drow) (write_row cfg s schema drow).group_fieldnames
        = some (headerFor (mkRow schema drow)) ∧
    alookup (groupValue cfg drow) (write_row cfg s schema drow).group_row_counts
        = some 1 := by
  simp [write_row, openGroupStep, headerStep, appendStep, hw, hf, alookup_aset_self]

/-! ## Row-dict lemmas -/

theorem alookup_eraseKey_ne {f k : String} (h : f ≠ k) (d : Row) :
    alookup f (eraseKey k d) = alookup f d := by
  induction d with
  | nil => rfl
  | cons p rest ih =>
    obtain ⟨k1, v1⟩ := p
    by_cases hk : k1 = k
    · subst hk
      have he : eraseKey k1 ((k1, v1) :: rest) = eraseKey k1 rest := by
        simp [eraseKey]
      rw [he, ih]
      simp [alookup, Ne.symm h]
    · have he : eraseKey k ((k1, v1) :: rest) = (k1, v1) :: eraseKey k rest := by
        simp [eraseKey, hk]
      rw [he]
      by_cases hf : k1 = f
      · simp [alookup, hf]
      · simp [alookup, hf, ih]

theorem renderRow_eraseKey (fs : List String) (row : Row) (k : String)
    (h : k ∉ fs) : renderRow fs (eraseKey k row) = renderRow fs row := by
  apply List.map_congr_left
  intro f hf
  rw [alookup_eraseKey_ne (by intro he; exact h (he ▸ hf)) row]

theorem alookup_none_of_not_mem_keys {k : String} :
    ∀ {l : Row}, k ∉ l.map Prod.fst → alookup k l = none := by
  intro l
  induction l with
  | nil => intro _; rfl
  | cons p rest ih =>
    intro h
    obtain ⟨k1, v1⟩ := p
    rw [List.map_cons, List.mem_cons] at h
    push_neg at h
    simp [alookup, Ne.symm h.1, ih h.2]

theorem alookup_dictUpdate_of_none {k : String} :
    ∀ (e d : Row), alookup k e = none → alookup k (dictUpdate d e) = alookup k d := by
  intro e
  induction e with
  | nil => intro d _; rfl
  | cons p rest ih =>
    intro d h
    obtain ⟨k1, v1⟩ := p
    by_cases hk : k1 = k
    · simp [alookup, hk] at h
    · simp [alookup, hk] at h
      have hstep : dictUpdate d ((k1, v1) :: rest) = dictUpdate (aset k1 v1 d) rest := rfl
      rw [hstep, ih (aset k1 v1 d) h, alookup_aset_ne (Ne.symm hk)]

theorem alookup_dictUpdate_of_some {k : String} {v : String} :
    ∀ (e d : Row), (e.map Prod.fst).Nodup → alookup k e = some v →
      alookup k (dictUpdate d e) = some v := by
  intro e
  induction e with
  | nil => intro d _ h; simp [alookup] at h
  | cons p rest ih =>
    intro d hnd h
    obtain ⟨k1, v1⟩ := p
    rw [List.map_cons, List.nodup_cons] at hnd
    have hstep : dictUpdate d ((k1, v1) :: rest) = dictUpdate (aset k1 v1 d) rest := rfl
    by_cases hk : k1 = k
    · subst hk
      simp [alookup] at h
      subst h
      have hrest : alookup k1 rest = none := alookup_none_of_not_mem_keys hnd.1
      rw [hstep, alookup_dictUpdate_of_none rest (aset k1 v1 d) hrest, alookup_aset_self]
    · simp [alookup, hk] at h
      rw [hstep, ih (aset k1 v1 d) hnd.2 h]

/-! ## Sortedness of the header tail -/

theorem charsLe_total : ∀ a b : List Char, charsLe a b = true ∨ charsLe b a = true := by
  intro a
  induction a with
  | nil => intro b; left; rfl
  | cons x xs ih =>
    intro b
    cases b with
    | nil => right; rfl
    | cons y ys =>
      rcases Nat.lt_trichotomy x.toNat y.toNat with h | h | h
      · left; simp [charsLe, h]
      · rcases ih ys with hr | hr
        · left; simp [charsLe, h, hr]
        · right; simp [charsLe, h, hr]
      · right; simp [charsLe, h]

theorem strLe_total (a b : String) : strLe a b = true ∨ strLe b a = true :=
  charsLe_total a.data b.data

theorem charsLe_trans : ∀ a b c : List Char,
    charsLe a b = true → charsLe b c = true → charsLe a c = true := by
  intro a
  induction a with
  | nil => intro b c _ _; rfl
  | cons x xs ih =>
    intro b c hab hbc
    cases b with
    | nil => simp [charsLe] at hab
    | cons y ys =>
      cases c with
      | nil => simp [charsLe] at hbc
      | cons z zs =>
        simp only [charsLe] at hab hbc ⊢
        rcases Nat.lt_trichotomy x.toNat y.toNat with h1 | h1 | h1
        · rcases Nat.lt_trichotomy y.toNat z.toNat with h2 | h2 | h2
          · simp [Nat.lt_trans h1 h2]
          · simp [show x.toNat < z.toNat by omega]
          · simp [Nat.lt_asymm h2, h2] at hbc
        · rcases Nat.lt_trichotomy y.toNat z.toNat with h2 | h2 | h2
          · simp [show x.toNat < z.toNat by omega]
          · simp [show ¬ x.toNat < y.toNat by omega,
              show ¬ y.toNat < x.toNat by omega] at hab
            simp [show ¬ y.toNat < z.toNat by omega,
              show ¬ z.toNat < y.toNat by omega] at hbc
            simp [show ¬ x.toNat < z.toNat by omega,
              show ¬ z.toNat < x.toNat by omega]
            exact ih ys zs hab hbc
          · simp [Nat.lt_asymm h2, h2] at hbc
        · simp [Nat.lt_asymm h1, h1] at hab

theorem strLe_trans {a b c : String} (h1 : strLe a b = true) (h2 : strLe b c = true) :
    strLe a c = true :=
  charsLe_trans a.data b.data c.data h1 h2

theorem mem_insertSorted {x s : String} :
    ∀ {l : List String}, x ∈ insertSorted s l → x = s ∨ x ∈ l := by
  intro l
  induction l with
  | nil => intro h; simp [insertSorted] at h; exact Or.inl h
  | cons t ts ih =>
    intro h
    by_cases hle : strLe s t
    · simp [insertSorted, hle] at h
      rcases h with h | h | h
      · exact Or.inl h
      · exact Or.inr (by simp [h])
      · exact Or.inr (by simp [h])
    · simp [insertSorted, hle] at h
      rcases h with h | h
      · exact Or.inr (by simp [h])
      · rcases ih h with h1 | h1
        · exact Or.inl h1
        · exact Or.inr (by simp [h1])

theorem sorted_insertSorted (s : String) :
    ∀ {l : List String}, List.Sorted (fun a b => strLe a b = true) l →
      List.Sorted (fun a b => strLe a b = true) (insertSorted s l) := by
  intro l
  induction l with
  | nil => intro _; simp [insertSorted]
  | cons t ts ih =>
    intro hs
    rw [List.sorted_cons] at hs
    by_cases hle : strLe s t
    · have hif : insertSorted s (t :: ts) = s :: t :: ts := by
        simp [insertSorted, hle]
      rw [hif, List.sorted_cons]
      refine ⟨?_, List.sorted_cons.mpr hs⟩
      intro b hb
      rcases List.mem_cons.mp hb with hb | hb
      · exact hb ▸ hle
      · exact strLe_trans hle (hs.1 b hb)
    · have hif : insertSorted s (t :: ts) = t :: insertSorted s ts := by
        simp [insertSorted, hle]
      rw [hif, List.sorted_cons]
      refine ⟨?_, ih hs.2⟩
      intro b hb
      rcases mem_insertSorted hb with h1 | h1
      · rw [h1]
        rcases strLe_total s t with h2 | h2
        · exact absurd h2 hle
        · exact h2
      · exact hs.1 b h1

theorem sortStrings_sorted :
    ∀ l : List String, List.Sorted (fun a b => strLe a b = true) (sortStrings l) := by
  intro l
  induction l with
  | nil => simp [sortStrings]
  | cons s ss ih => exact sorted_insertSorted s ih

theorem insertSorted_perm (s : String) :
    ∀ l : List String, List.Perm (insertSorted s l) (s :: l) := by
  intro l
  induction l with
  | nil => simp [insertSorted]
  | cons t ts ih =>
    by_cases hle : strLe s t
    · simp [insertSorted, hle]
    · simp only [insertSorted, hle, if_false]
      exact List.Perm.trans (List.Perm.cons t ih) (List.Perm.swap s t ts)

theorem sortStrings_perm : ∀ l : List String, List.Perm (sortStrings l) l := by
  intro l
  induction l with
  | nil => simp [sortStrings]
  | cons s ss ih =>
    exact List.Perm.trans (insertSorted_perm s (sortStrings ss)) (List.Perm.cons s ih)

/-- `result['row_count'] == len(result['data'])`, as `fetch_from_schema`
always arranges on the success path (line 165). -/
def wellFormedResult : FetchResult → Bool
  | .success _ rc data => rc == data.length
  | .error _ _ => true

theorem fetch_from_schema_wellFormed (cred : Credentials) (db : DbBehavior) :
    wellFormedResult (fetch_from_schema cred db) = true := by
  cases db <;> simp [fetch_from_schema, wellFormedResult]

theorem successRowCountTotal_eq_of_wellFormed :
    ∀ results : List FetchResult, results.all wellFormedResult = true →
      successRowCountTotal results = successRowTotal results := by
  intro results
  induction results with
  | nil => intro _; rfl
  | cons r rest ih =>
    intro h
    rw [List.all_cons, Bool.and_eq_true] at h
    have hrest := ih h.2
    simp only [successRowCountTotal, successRowTotal] at hrest
    cases r with
    | success sc rc data =>
      have hrc : rc = data.length := by
        simpa [wellFormedResult] using h.1
      simp only [successRowCountTotal, successRowTotal, List.map_cons, List.sum_cons, hrc]
      omega
    | error sc msg =>
      simp only [successRowCountTotal, successRowTotal, List.map_cons, List.sum_cons]
      omega

/-! ## Claim theorems -/

/-- C2: given K completion-ordered source results of which F are failures,
the run completes and its summary reports `total_schemas = K`,
`failed = F`, `successful = K - F`, the F error results listed in arrival
order, and the rows of every succeeding source all written (the total
written equals the combined size of the successful sources' data); the
processing of one failure never prevents the others from being processed. -/
theorem c2_failure_isolation (cfg : Config) (results : List FetchResult) (duration : Nat) :
    (fetch_all_schemas cfg results duration).summary.total_schemas = results.length ∧
    (fetch_all_schemas cfg results duration).summary.failed
      = (results.filter isError).length ∧
    (fetch_all_schemas cfg results duration).summary.successful
      = results.length - (results.filter isError).length ∧
    (fetch_all_schemas cfg results duration).summary.errors = results.filter isError ∧
    (fetch_all_schemas cfg results duration).summary.total_rows_written
      = successRowTotal results := by
  obtain ⟨_, h2, h3, h4, h5, _⟩ := processResults_spec cfg results initRun syncedW_initW
  have hsplit := filter_isError_length_split results
  refine ⟨rfl, ?_, ?_, ?_, ?_⟩
  · simpa [fetch_all_schemas, initRun] using h3
  · have hsc : (processResults cfg initRun results).success_count
        = (results.filter (fun r => !(isError r))).length := by
      simpa [initRun] using h2
    simp only [fetch_all_schemas]
    rw [hsc]
    omega
  · simpa [fetch_all_schemas, initRun] using h4
  · simp only [fetch_all_schemas]
    simpa [initRun, initW, totalRows] using h5

/-- C3: the total number of rows written across all output groups (the sum
of the per-group row counters) equals the sum of the `row_count` values
returned by the successful sources, and that number is what the summary
reports as `total_rows_written`. -/
theorem c3_total_rows (cfg : Config) (results : List FetchResult) (duration : Nat)
    (hwf : results.all wellFormedResult = true) :
    (fetch_all_schemas cfg results duration).summary.total_rows_written
      = successRowCountTotal results ∧
    (fetch_all_schemas cfg results duration).summary.total_rows_written
      = totalRows (fetch_all_schemas cfg results duration).final.ws := by
  obtain ⟨_, _, _, _, h5, _⟩ := processResults_spec cfg results initRun syncedW_initW
  constructor
  · rw [successRowCountTotal_eq_of_wellFormed results hwf]
    simp only [fetch_all_schemas]
    simpa [initRun, initW, totalRows] using h5
  · rfl

/-- C3 witness: a run over results produced by `fetch_from_schema` (one
success with two rows, one connect failure). -/
theorem c3_total_rows_witness :
    (fetch_all_schemas ⟨some "g", none⟩
        [fetch_from_schema ⟨"pw", "db1", "u", "h"⟩
            (DbBehavior.queryOk ["g", "n"] [["x", "5"], ["y", "7"]]),
          fetch_from_schema ⟨"pw", "db2", "u", "h"⟩ (DbBehavior.connError "refused")]
        9).summary.total_rows_written
      = successRowCountTotal
          [fetch_from_schema ⟨"pw", "db1", "u", "h"⟩
              (DbBehavior.queryOk ["g", "n"] [["x", "5"], ["y", "7"]]),
            fetch_from_schema ⟨"pw", "db2", "u", "h"⟩ (DbBehavior.connError "refused")] :=
  (c3_total_rows ⟨some "g", none⟩
    [fetch_from_schema ⟨"pw", "db1", "u", "h"⟩
        (DbBehavior.queryOk ["g", "n"] [["x", "5"], ["y", "7"]]),
      fetch_from_schema ⟨"pw", "db2", "u", "h"⟩ (DbBehavior.connError "refused")]
    9 (by decide)).1

/-- C4 counterexample: the returned summary does not contain the per-group
row counts — no function of the summary alone can recover them: two runs
with equal summaries have different per-group counters. -/
theorem c4_counterexample :
    ¬ ∃ f : RunSummary → List (String × Nat),
        ∀ (cfg : Config) (results : List FetchResult) (duration : Nat),
          f (fetch_all_schemas cfg results duration).summary
            = (fetch_all_schemas cfg results duration).final.ws.group_row_counts := by
  rintro ⟨f, hf⟩
  have hA := hf ⟨some "g", none⟩
    [FetchResult.success "s1" 2 [[("g", "x")], [("g", "x")]]] 0
  have hB := hf ⟨some "g", none⟩
    [FetchResult.success "s1" 2 [[("g", "x")], [("g", "y")]]] 0
  have hs : (fetch_all_schemas ⟨some "g", none⟩
        [FetchResult.success "s1" 2 [[("g", "x")], [("g", "x")]]] 0).summary
      = (fetch_all_schemas ⟨some "g", none⟩
        [FetchResult.success "s1" 2 [[("g", "x")], [("g", "y")]]] 0).summary := by
    decide
  rw [hs] at hA
  rw [hA] at hB
  exact absurd hB (by decide)

/-- C4 (amended): the returned summary consists of exactly the total source
count, the success and failure counts, the duration, the total rows
written, and the error list in arrival order; the per-group row counts are
not part of it (the code only logs them). -/
theorem c4_summary_fields (cfg : Config) (results : List FetchResult) (duration : Nat) :
    (fetch_all_schemas cfg results duration).summary
      = { total_schemas := results.length
        , successful := (results.filter (fun r => !(isError r))).length
        , failed := (results.filter isError).length
        , duration_seconds := duration
        , total_rows_written := successRowTotal results
        , errors := results.filter isError } := by
  obtain ⟨_, h2, h3, h4, h5, _⟩ := processResults_spec cfg results initRun syncedW_initW
  simp only [fetch_all_schemas]
  rw [RunSummary.mk.injEq]
  refine ⟨rfl, ?_, ?_, rfl, ?_, ?_⟩
  · simpa [initRun] using h2
  · simpa [initRun] using h3
  · simpa [initRun, initW, totalRows] using h5
  · simpa [initRun] using h4

/-- C8: every output sink opened at any point of the run (here: after any
prefix of the completion-ordered results, failures included) is still
registered at the end and is closed by the final close loop, whose closed
set is exactly the registry of opened sinks. -/
theorem c8_sinks_closed (cfg : Config) (rs1 rs2 : List FetchResult) (duration : Nat)
    (g fn : String)
    (h : alookup g (processResults cfg initRun rs1).ws.open_files = some fn) :
    fn ∈ (fetch_all_schemas cfg (rs1 ++ rs2) duration).closed_files ∧
    (fetch_all_schemas cfg (rs1 ++ rs2) duration).closed_files
      = ((fetch_all_schemas cfg (rs1 ++ rs2) duration).final.ws.open_files).map Prod.snd := by
  have hsplit : processResults cfg initRun (rs1 ++ rs2)
      = processResults cfg (processResults cfg initRun rs1) rs2 := by
    simp [processResults, List.foldl_append]
  obtain ⟨hw1, _, _, _, _, _⟩ := processResults_spec cfg rs1 initRun syncedW_initW
  obtain ⟨_, _, _, _, _, hmono⟩ :=
    processResults_spec cfg rs2 (processResults cfg initRun rs1) hw1
  refine ⟨?_, rfl⟩
  have hfin : alookup g (processResults cfg initRun (rs1 ++ rs2)).ws.open_files
      = some fn := by
    rw [hsplit]
    exact hmono g fn h
  simp only [fetch_all_schemas]
  exact alookup_mem_map_snd hfin

/-- C8 witness: one sink opened by a success during the run, a failure
arriving afterwards; the sink's file is in the closed set. -/
theorem c8_sinks_closed_witness :
    "g_x.csv" ∈ (fetch_all_schemas ⟨some "g", none⟩
        ([FetchResult.success "s1" 1 [[("g", "x")]]]
          ++ [FetchResult.error "s2" "boom"]) 3).closed_files :=
  (c8_sinks_closed ⟨some "g", none⟩ [FetchResult.success "s1" 1 [[("g", "x")]]]
    [FetchResult.error "s2" "boom"] 3 "x" "g_x.csv" (by decide)).1

/-- C1: over any sequence of `write_row` calls starting from the empty
registry, a group's fieldnames equal the header derived from the first row
that landed in that group (`'schema'` first, then the row's remaining
column names sorted); once present they survive any further writes from
any sources, and the stored header is indeed sorted: its tail is ordered
by the lexicographic order and is a permutation of the first row's
non-`schema` column names. -/
theorem c1_header_fixed (cfg : Config) (evs more : List (String × Row)) (g : String) :
    alookup g (runWrites cfg initW evs).group_fieldnames
      = (firstRowForGroup cfg g evs).map headerFor ∧
    (∀ fs, alookup g (runWrites cfg initW evs).group_fieldnames = some fs →
      alookup g (runWrites cfg initW (evs ++ more)).group_fieldnames = some fs) ∧
    (∀ r, firstRowForGroup cfg g evs = some r →
      headerFor r
          = "schema" :: sortStrings ((r.map Prod.fst).filter (fun k => k != "schema")) ∧
      List.Sorted (fun a b => strLe a b = true) (headerFor r).tail ∧
      List.Perm (headerFor r).tail ((r.map Prod.fst).filter (fun k => k != "schema"))) := by
  refine ⟨?_, ?_, ?_⟩
  · rw [runWrites_fieldnames]
    simp [initW, alookup]
  · intro fs hfs
    rw [runWrites_append, runWrites_fieldnames, hfs]
    rfl
  · intro r _
    refine ⟨rfl, ?_, ?_⟩
    · simpa [headerFor] using
        sortStrings_sorted ((r.map Prod.fst).filter (fun k => k != "schema"))
    · simpa [headerFor] using
        sortStrings_perm ((r.map Prod.fst).filter (fun k => k != "schema"))

/-- C1 witness: the header of group `"x"` is fixed by the first row
(columns `b`, `a`, `g` → header `schema, a, b, g`) and survives a later
write with a different column set. -/
theorem c1_header_fixed_witness :
    alookup "x" (runWrites ⟨some "g", none⟩ initW
        ([("s1", [("b", "1"), ("a", "2"), ("g", "x")])]
          ++ [("s2", [("z", "9"), ("g", "x")])])).group_fieldnames
      = some ["schema", "a", "b", "g"] :=
  (c1_header_fixed ⟨some "g", none⟩ [("s1", [("b", "1"), ("a", "2"), ("g", "x")])]
    [("s2", [("z", "9"), ("g", "x")])] "x").2.1 ["schema", "a", "b", "g"] (by decide)

/-- C5: a `write_row` call on a group whose header is already fixed appends
exactly one record to that group's file: the row's values taken
positionally against the fixed header, with the empty marker `""` for
every header column the row lacks, and with any row column outside the
header having no effect on the record. -/
theorem c5_positional_rendering (cfg : Config) (s : WState) (schema : String)
    (drow : Row) (fs : List String)
    (hw : alookup (groupValue cfg drow) s.group_writers = some fs)
    (hf : alookup (groupValue cfg drow) s.group_fieldnames = some fs) :
    alookup (groupValue cfg drow) (write_row cfg s schema drow).outputs
      = some (((alookup (groupValue cfg drow) s.outputs).getD [])
          ++ [renderRow fs (mkRow schema drow)]) ∧
    (renderRow fs (mkRow schema drow)).length = fs.length ∧
    (∀ i : Nat, (renderRow fs (mkRow schema drow))[i]?
      = (fs[i]?).map (fun f => (alookup f (mkRow schema drow)).getD "")) ∧
    (∀ (i : Nat) (f : String), fs[i]? = some f →
      alookup f (mkRow schema drow) = none →
      (renderRow fs (mkRow schema drow))[i]? = some "") ∧
    (∀ k, k ∉ fs →
      renderRow fs (eraseKey k (mkRow schema drow))
        = renderRow fs (mkRow schema drow)) := by
  refine ⟨?_, ?_, ?_, ?_, ?_⟩
  · rw [write_row_existing_outputs cfg s schema drow fs hw hf, alookup_aset_self]
  · simp [renderRow]
  · intro i
    simp [renderRow, List.getElem?_map]
  · intro i f hif hnone
    simp [renderRow, List.getElem?_map, hif, hnone]
  · intro k hk
    exact renderRow_eraseKey fs (mkRow schema drow) k hk

/-- C5 witness: group `"x"` has fixed header `schema, a, g`; a later row
with columns `g`, `b` is appended as `["s2", "", "x"]` — `b` is dropped,
the missing `a` becomes the empty marker. -/
theorem c5_positional_rendering_witness :
    alookup "x" (write_row ⟨some "g", none⟩
        ⟨[("x", ["schema", "a", "g"])], [("x", ["schema", "a", "g"])], [("x", 1)],
          [("x", "g_x.csv")], [("x", [["schema", "a", "g"], ["s1", "1", "x"]])]⟩
        "s2" [("g", "x"), ("b", "2")]).outputs
      = some ([["schema", "a", "g"], ["s1", "1", "x"]]
          ++ [renderRow ["schema", "a", "g"] (mkRow "s2" [("g", "x"), ("b", "2")])]) :=
  (c5_positional_rendering ⟨some "g", none⟩
    ⟨[("x", ["schema", "a", "g"])], [("x", ["schema", "a", "g"])], [("x", 1)],
      [("x", "g_x.csv")], [("x", [["schema", "a", "g"], ["s1", "1", "x"]])]⟩
    "s2" [("g", "x"), ("b", "2")] ["schema", "a", "g"] (by decide) (by decide)).1

/-- C6: `fetch_from_schema` is total over every source descriptor and every
database behaviour (it never raises past its boundary), always returns a
result tagged with the source's own identifier, returns an error result on
connect failure and on any execution error, and on success returns the
rows zipped with the cursor columns in result-set order (the i-th returned
row comes from the i-th result-set row). -/
theorem c6_worker_boundary (cred : Credentials) (db : DbBehavior) :
    (fetch_from_schema cred db).schemaOf = cred.database_name ∧
    (∀ m, db = DbBehavior.connError m →
      fetch_from_schema cred db
        = FetchResult.error cred.database_name ("Connection timeout after 15s: " ++ m)) ∧
    (∀ m, db = DbBehavior.execError m →
      fetch_from_schema cred db = FetchResult.error cred.database_name m) ∧
    (∀ cols rws, db = DbBehavior.queryOk cols rws →
      fetch_from_schema cred db
        = FetchResult.success cred.database_name rws.length
            (rws.map (fun r => dictOfZip cols r)) ∧
      ∀ i : Nat, (rws.map (fun r => dictOfZip cols r))[i]?
        = (rws[i]?).map (fun r => dictOfZip cols r)) := by
  refine ⟨?_, ?_, ?_, ?_⟩
  · cases db <;> simp [fetch_from_schema, FetchResult.schemaOf]
  · intro m hm
    subst hm
    rfl
  · intro m hm
    subst hm
    rfl
  · intro cols rws hq
    subst hq
    refine ⟨by simp [fetch_from_schema], ?_⟩
    intro i
    simp [List.getElem?_map]

/-- C6 witness: a connect failure is returned as an error result carrying
the source identifier and the timeout message. -/
theorem c6_worker_boundary_witness :
    fetch_from_schema ⟨"pw", "db1", "u", "h"⟩ (DbBehavior.connError "refused")
      = FetchResult.error "db1" ("Connection timeout after 15s: " ++ "refused") :=
  (c6_worker_boundary ⟨"pw", "db1", "u", "h"⟩ (DbBehavior.connError "refused")).2.1
    "refused" rfl

theorem append_unknown_csv (gc : String) :
    gc ++ "_" ++ "unknown" ++ ".csv" = gc ++ "_unknown.csv" := by
  have hlit : ("_" : String) ++ ("unknown" ++ ".csv") = "_unknown.csv" := by decide
  rw [String.append_assoc, String.append_assoc, hlit]

/-- C7 counterexample: with grouping disabled and no single-output-file
override, the writer falls back to the fixed default name
`schema_results.csv`; there is no caller-specified single file name, so
the claim's "the caller-specified single file name when grouping is
disabled/overridden" clause is false for that configuration. -/
theorem c7_counterexample :
    ¬ ∀ (cfg : Config) (gv : String),
        (strOptTruthy cfg.single_file_name = true ∨ strOptTruthy cfg.group_column = false) →
        ∃ n, cfg.single_file_name = some n ∧ filenameFor cfg gv = n := by
  intro h
  obtain ⟨n, hn, _⟩ := h ⟨none, none⟩ "all" (Or.inr rfl)
  exact absurd hn (by simp)

/-- C7 (amended): the group key is the row's value in the configured
grouping column, or the `"all"` sentinel when grouping is disabled or the
single-output-file override is set; the file opened for a new group is
named `<grouping-column>_<group-value>.csv` when a grouping column is
configured without an override, the caller-specified single file name when
the override is set, and the default `schema_results.csv` when grouping is
disabled without an override. -/
theorem c7_group_key_and_filename (cfg : Config) (s : WState) (schema : String)
    (drow : Row) :
    (strOptTruthy cfg.single_file_name = true →
      groupValue cfg drow = "all" ∧
      ∃ n, cfg.single_file_name = some n ∧ filenameFor cfg (groupValue cfg drow) = n) ∧
    (strOptTruthy cfg.single_file_name = false →
      ∀ gc v, cfg.group_column = some gc → gc ≠ "" → alookup gc drow = some v →
        groupValue cfg drow = v ∧
        filenameFor cfg (groupValue cfg drow) = gc ++ "_" ++ v ++ ".csv") ∧
    (strOptTruthy cfg.single_file_name = false →
      strOptTruthy cfg.group_column = false →
      groupValue cfg drow = "all" ∧
      filenameFor cfg (groupValue cfg drow) = "schema_results.csv") ∧
    (alookup (groupValue cfg drow) s.group_writers = none →
      alookup (groupValue cfg drow) (write_row cfg s schema drow).open_files
        = some (filenameFor cfg (groupValue cfg drow))) := by
  refine ⟨?_, ?_, ?_, ?_⟩
  · intro hs1
    refine ⟨by simp [groupValue, hs1], ?_⟩
    cases hn : cfg.single_file_name with
    | none => rw [hn] at hs1; simp [strOptTruthy] at hs1
    | some n =>
      have hs1n : strOptTruthy (some n) = true := by rw [hn] at hs1; exact hs1
      exact ⟨n, rfl, by simp [filenameFor, hn, hs1n]⟩
  · intro hs0 gc v hgc hne hv
    have hgt : strOptTruthy (some gc) = true := by
      simp [strOptTruthy, hne]
    constructor
    · simp [groupValue, hs0, hgc, hgt, hv]
    · simp [groupValue, filenameFor, hs0, hgc, hgt, hv]
  · intro hs0 hg0
    constructor
    · simp [groupValue, hs0, hg0]
    · simp [groupValue, filenameFor, hs0, hg0]
  · intro hw
    rw [write_row_open_files]
    simp [hw, alookup_aset_self]

/-- C7 witness: grouping column `g`, no override; a row with `g = "x"`
goes to group `"x"`, and its fresh group opens the file `g_x.csv`. -/
theorem c7_group_key_and_filename_witness :
    groupValue ⟨some "g", none⟩ [("g", "x"), ("n", "5")] = "x" ∧
    filenameFor ⟨some "g", none⟩ (groupValue ⟨some "g", none⟩ [("g", "x"), ("n", "5")])
      = "g" ++ "_" ++ "x" ++ ".csv" :=
  (c7_group_key_and_filename ⟨some "g", none⟩ initW "s1" [("g", "x"), ("n", "5")]).2.1
    rfl "g" "x" rfl (by decide) (by decide)

/-- C9: with a grouping column configured (and no single-file override), a
row that lacks the grouping column is assigned the group key `"unknown"` —
not the `"all"` sentinel and not an error — and a fresh such group opens
the file `<grouping-column>_unknown.csv`. -/
theorem c9_missing_group_column (cfg : Config) (s : WState) (schema : String)
    (drow : Row) (gc : String)
    (hs0 : strOptTruthy cfg.single_file_name = false)
    (hgc : cfg.group_column = some gc)
    (hne : gc ≠ "")
    (hmiss : alookup gc drow = none) :
    groupValue cfg drow = "unknown" ∧
    filenameFor cfg (groupValue cfg drow) = gc ++ "_unknown.csv" ∧
    (alookup "unknown" s.group_writers = none →
      alookup "unknown" (write_row cfg s schema drow).open_files
        = some (gc ++ "_unknown.csv")) := by
  have hgt : strOptTruthy (some gc) = true := by
    simp [strOptTruthy, hne]
  have hgv : groupValue cfg drow = "unknown" := by
    simp [groupValue, hs0, hgc, hgt, hmiss]
  have hfn2 : filenameFor cfg "unknown" = gc ++ "_unknown.csv" := by
    rw [show filenameFor cfg "unknown" = gc ++ "_" ++ "unknown" ++ ".csv" by
      simp [filenameFor, hs0, hgc, hgt]]
    exact append_unknown_csv gc
  have hfn : filenameFor cfg (groupValue cfg drow) = gc ++ "_unknown.csv" := by
    rw [hgv]
    exact hfn2
  refine ⟨hgv, hfn, ?_⟩
  intro hw
  rw [write_row_open_files, hgv]
  simp [hw, alookup_aset_self, hfn2]

/-- C9 witness: grouping column `g`, row `{h: 1}` without it: group
`"unknown"`, file `g_unknown.csv`. -/
theorem c9_missing_group_column_witness :
    groupValue ⟨some "g", none⟩ [("h", "1")] = "unknown" ∧
    alookup "unknown" (write_row ⟨some "g", none⟩ initW "s1" [("h", "1")]).open_files
      = some ("g" ++ "_unknown.csv") := by
  obtain ⟨h1, _, h3⟩ := c9_missing_group_column ⟨some "g", none⟩ initW "s1"
    [("h", "1")] "g" rfl rfl (by decide) (by decide)
  exact ⟨h1, h3 (by decide)⟩

/-- C10: if a source row itself contains a column named `schema`, the
`row.update(data_row)` step overwrites the injected source identifier, so
the written `schema` cell holds the row's own value: the rendered record's
first cell (the header always starts with `schema`) is that value, both in
general and in the record `write_row` appends for a fresh group. -/
theorem c10_schema_column_overwrites (cfg : Config) (s : WState) (schema : String)
    (drow : Row) (v : String)
    (hnd : (drow.map Prod.fst).Nodup)
    (hv : alookup "schema" drow = some v) :
    alookup "schema" (mkRow schema drow) = some v ∧
    (∀ rest : List String,
      (renderRow ("schema" :: rest) (mkRow schema drow)).head? = some v) ∧
    (alookup (groupValue cfg drow) s.group_writers = none →
      alookup (groupValue cfg drow) s.group_fieldnames = none →
      alookup (groupValue cfg drow) (write_row cfg s schema drow).outputs
          = some [headerFor (mkRow schema drow),
              renderRow (headerFor (mkRow schema drow)) (mkRow schema drow)] ∧
      (renderRow (headerFor (mkRow schema drow)) (mkRow schema drow)).head?
          = some v) := by
  have hover : alookup "schema" (mkRow schema drow) = some v :=
    alookup_dictUpdate_of_some drow [("schema", schema)] hnd hv
  have hhead : ∀ rest : List String,
      (renderRow ("schema" :: rest) (mkRow schema drow)).head? = some v := by
    intro rest
    simp [renderRow, hover]
  refine ⟨hover, hhead, ?_⟩
  intro hw hf
  obtain ⟨_, hout, _, _⟩ := write_row_fresh cfg s schema drow hw hf
  exact ⟨hout, by rw [headerFor]; exact hhead _⟩

/-- C10 witness: source `s1`, row `{a: 1, schema: zzz}`: the written record
for the fresh group starts with `zzz`, not `s1`. -/
theorem c10_schema_column_overwrites_witness :
    (renderRow (headerFor (mkRow "s1" [("a", "1"), ("schema", "zzz")]))
        (mkRow "s1" [("a", "1"), ("schema", "zzz")])).head? = some "zzz" :=
  ((c10_schema_column_overwrites ⟨none, none⟩ initW "s1"
      [("a", "1"), ("schema", "zzz")] "zzz" (by decide) (by decide)).2.2
    (by decide) (by decide)).2

end MSF
